import Mathlib

/-!
Verification development for a two-stage document search engine.

The embedded program is a Node/Express service with:
  * a keyword relevance scorer (`scoreDocumentsByKeywords`),
  * a densest-window snippet extractor (`extractBestWindow`),
  * a context packer (`formatDocumentsForContext`),
  * a two-stage select-then-answer pipeline (`selectRelevantDocuments`,
    `generateAnswer`, `searchDocuments`),
  * an LRU response cache (`SearchCache`),
  * a sliding-window rate limiter (`checkRateLimit`)
  * and the `/api/search` HTTP route handler (`handleSearch`).

Strings are modelled as Lean `String` with character-list operations
(ASCII case mapping); JS numbers that hold counts/offsets are `Nat`,
timestamps are `Int`.  The LLM backend and the JSON parser are external
collaborators: their outcomes are passed in as explicit data so that the
control flow of the embedded functions mirrors the source exactly.
-/

namespace SearchEngine

/-- A document record as held by the in-memory index / database. -/
structure Doc where
  filename : String
  filetype : String
  content : String
deriving DecidableEq

/-- JS `String.prototype.toLowerCase` restricted to the ASCII case mapping
used by the documents and queries of this system. -/
def jsToLower (s : String) : String := String.mk (s.toList.map Char.toLower)

/-- A character the query tokenizer keeps: the source splits the query on
the regex class `[\s\W_]+`, whose complement is exactly `[A-Za-z0-9]`. -/
def isWordChar (c : Char) : Bool := c.isAlphanum

/-- Maximal runs of word characters of a character list: the non-empty
fields produced by the JS `split(/[\s\W_]+/)` (empty fields are dropped;
the source drops them anyway with its length filter). -/
def wordRuns : List Char → List Char → List (List Char)
  | [], acc => if acc.isEmpty then [] else [acc.reverse]
  | c :: rest, acc =>
    if isWordChar c then wordRuns rest (c :: acc)
    else if acc.isEmpty then wordRuns rest [] else acc.reverse :: wordRuns rest []

/-- Query tokenization of `scoreDocumentsByKeywords`: lowercase, split on
whitespace/punctuation, keep only tokens longer than 2 characters. -/
def queryTokens (query : String) : List (List Char) :=
  (wordRuns (jsToLower query).toList []).filter (fun t => 2 < t.length)

/-- `leadsWith pat s` holds when `pat` occurs at the start of `s`. -/
def leadsWith : List Char → List Char → Bool
  | [], _ => true
  | _ :: _, [] => false
  | a :: as, b :: bs => a == b && leadsWith as bs

/-- Scanning loop of `countOcc`; the fuel argument only forces structural
recursion (every step consumes at least one character of the text, so
`s.length` fuel always suffices). -/
def countOccGo (pat : List Char) : Nat → List Char → Nat
  | 0, _ => 0
  | _, [] => 0
  | fuel + 1, c :: rest =>
    if pat.isEmpty then 0
    else if leadsWith pat (c :: rest) then 1 + countOccGo pat fuel (rest.drop (pat.length - 1))
    else countOccGo pat fuel rest

/-- Number of non-overlapping occurrences of `pat` in `s`, scanning left to
right: the match count of the global regex `new RegExp(token, 'g')` for a
literal alphanumeric token.  (Tokens are never empty: they have length
at least 3; the empty-pattern guard just keeps the function total.) -/
def countOcc (pat s : List Char) : Nat := countOccGo pat s.length s

/-- All (possibly overlapping) start offsets of `pat` in `s`, in ascending
order: exactly what the source's `indexOf` / `indexOf(token, pos + 1)`
loop records for a non-empty token. -/
def occPositions (pat s : List Char) : List Nat :=
  (List.range s.length).filter (fun i => leadsWith pat (s.drop i))

/-- A document annotated by `scoreDocumentsByKeywords` with its raw keyword
score and the recorded body match offsets.  The source stores the float
`relevanceScore = rawScore / Math.sqrt(content.length || 1)`; we keep the
integer `rawScore` and recover the ordering on the real-valued scores
exactly through `scoreGe`. -/
structure ScoredDoc where
  doc : Doc
  rawScore : Nat
  matchPositions : List Nat
deriving DecidableEq

/-- The `|| 1` guarded content length used by the score normalization. -/
def lenEff (d : Doc) : Nat := max d.content.length 1

/-- Comparator of the descending stable sort on `relevanceScore`:
`scoreGe a b` holds iff
`a.rawScore / √(lenEff a.doc) ≥ b.rawScore / √(lenEff b.doc)`,
written without square roots by cross-multiplying the squares
(the guarded lengths are at least 1, so this is exact). -/
def scoreGe (a b : ScoredDoc) : Prop :=
  b.rawScore ^ 2 * lenEff a.doc ≤ a.rawScore ^ 2 * lenEff b.doc

instance : DecidableRel scoreGe := fun a b => by
  unfold scoreGe; infer_instance

instance : IsTotal ScoredDoc scoreGe :=
  ⟨fun a b => le_total (b.rawScore ^ 2 * lenEff a.doc) (a.rawScore ^ 2 * lenEff b.doc)⟩

theorem lenEff_pos (d : Doc) : 0 < lenEff d := by
  simp [lenEff]

instance : IsTrans ScoredDoc scoreGe := by
  refine ⟨fun a b c h1 h2 => ?_⟩
  unfold scoreGe at *
  have hb := lenEff_pos b.doc
  have h3 : c.rawScore ^ 2 * lenEff a.doc * lenEff b.doc ≤
      a.rawScore ^ 2 * lenEff c.doc * lenEff b.doc := by
    calc c.rawScore ^ 2 * lenEff a.doc * lenEff b.doc
        = c.rawScore ^ 2 * lenEff b.doc * lenEff a.doc := by ring
      _ ≤ b.rawScore ^ 2 * lenEff c.doc * lenEff a.doc :=
          Nat.mul_le_mul_right _ h2
      _ = b.rawScore ^ 2 * lenEff a.doc * lenEff c.doc := by ring
      _ ≤ a.rawScore ^ 2 * lenEff b.doc * lenEff c.doc :=
          Nat.mul_le_mul_right _ h1
      _ = a.rawScore ^ 2 * lenEff c.doc * lenEff b.doc := by ring
  exact Nat.le_of_mul_le_mul_right h3 hb

/-- `scoreDocumentsByKeywords(query, documents)` of the source: tokenize the
query, give every document a raw score (2 per body occurrence, 5 per
filename occurrence of each token), record the body match offsets in
ascending order, and stably sort by the normalized score in descending
order.  With no usable tokens, every document gets score 0 in the original
order.  The JS engine's `Array.prototype.sort` is stable; we model it with
the stable `List.insertionSort`. -/
def scoreDocumentsByKeywords (query : String) (documents : List Doc) : List ScoredDoc :=
  let toks := queryTokens query
  if toks.isEmpty then
    documents.map (fun d => ⟨d, 0, []⟩)
  else
    let scored := documents.map (fun d =>
      let contentLower := (jsToLower d.content).toList
      let filenameLower := (jsToLower d.filename).toList
      let score := toks.foldl
        (fun s t => s + countOcc t contentLower * 2 + countOcc t filenameLower * 5) 0
      let positions := toks.flatMap (fun t => occPositions t contentLower)
      ⟨d, score, List.insertionSort (· ≤ ·) positions⟩)
    List.insertionSort scoreGe scored

/-- Reference raw score, following the specification's words: for each
usable query token, add 2 per case-insensitive occurrence in the document
body and 5 per occurrence in the filename. -/
def specRawScore (query : String) (d : Doc) : Nat :=
  ((queryTokens query).map (fun t =>
      countOcc t (jsToLower d.content).toList * 2
        + countOcc t (jsToLower d.filename).toList * 5)).sum

/-! ## Snippet window extractor -/

/-- Matches counted for the candidate window starting at offset `p`: the
candidate itself plus the later recorded offsets that fall inside
`[p, p + windowSize]`; the source's inner loop walks the (sorted) tail and
stops at the first offset beyond the window edge, hence `takeWhile`. -/
def windowCount (windowSize p : Nat) (rest : List Nat) : Nat :=
  1 + (rest.takeWhile (fun q => q ≤ p + windowSize)).length

/-- The window counts of every candidate offset, in candidate order. -/
def windowCounts (windowSize : Nat) : List Nat → List Nat
  | [] => []
  | p :: rest => windowCount windowSize p rest :: windowCounts windowSize rest

/-- The argmax loop of `extractBestWindow`: a later candidate replaces the
current best only when its count is strictly larger. -/
def bestStartGo (windowSize : Nat) : List Nat → Nat → Nat → Nat
  | [], best, _ => best
  | p :: rest, best, maxC =>
    let c := windowCount windowSize p rest
    if maxC < c then bestStartGo windowSize rest p c
    else bestStartGo windowSize rest best maxC

/-- Offset of the densest candidate window (first maximizer), seeded with
the first recorded offset and an initial count of 1 as in the source. -/
def bestStart (windowSize : Nat) (positions : List Nat) : Nat :=
  bestStartGo windowSize positions (positions.headD 0) 1

/-- The character range `[finalStart, endPos)` that `extractBestWindow`
cuts out of the content (source lines 448-457): pad the best start
backward by `windowSize / 4`, clamp the end to the content length, and
shift the start back when the clamped window is shorter than the budget.
Truncating `Nat` subtraction models the `Math.max(0, ...)` clamps. -/
def bestWindowRange (contentLen windowSize : Nat) (positions : List Nat) : Nat × Nat :=
  let best := bestStart windowSize positions
  let padding := windowSize / 4
  let startPos := best - padding
  let endPos := min contentLen (startPos + windowSize)
  let finalStart := if endPos - startPos < windowSize then endPos - windowSize else startPos
  (finalStart, endPos)

/-- JS `s.substring(a, b)` for `a ≤ b`, clamped to the string bounds. -/
def substringChars (s : List Char) (a b : Nat) : List Char := (s.drop a).take (b - a)

/-- `extractBestWindow(doc, windowSize)` of the source: with no recorded
match offsets return the first `windowSize` characters, otherwise cut the
densest window and wrap it in `...` ellipsis markers on the truncated
sides. -/
def extractBestWindow (sd : ScoredDoc) (windowSize : Nat) : String :=
  let content := sd.doc.content.toList
  if sd.matchPositions.isEmpty then
    String.mk (substringChars content 0 windowSize)
  else
    let r := bestWindowRange content.length windowSize sd.matchPositions
    let window := substringChars content r.1 r.2
    String.mk
      ((if 0 < r.1 then "...".toList else [])
        ++ window
        ++ (if r.2 < content.length then "...".toList else []))

/-! ## Context packer -/

/-- Metadata the packer records for every document it actually included. -/
structure PackedMeta where
  filename : String
  filetype : String
  rawScore : Nat
deriving DecidableEq

/-- Result of the packer: the assembled context text and the included
documents' metadata. -/
structure PackResult where
  context : String
  selectedDocs : List PackedMeta
deriving DecidableEq

/-- The packing loop of `formatDocumentsForContext`: append header+window
blocks while the running character count stays within budget; the first
block that would overflow is replaced by the one-line truncation marker
and packing stops. -/
def packDocs (maxChars : Nat) : Nat → List ScoredDoc → String × List PackedMeta
  | _, [] => ("", [])
  | charCount, sd :: rest =>
    let docHeader := "[" ++ sd.doc.filename ++ "]\n"
    let docContent := extractBestWindow sd 1000
    let docBlock := docHeader ++ docContent ++ "\n\n"
    if maxChars < charCount + docBlock.length then
      ("\n[More documents available but omitted due to context limit]\n", [])
    else
      let r := packDocs maxChars (charCount + docBlock.length) rest
      (docBlock ++ r.1, ⟨sd.doc.filename, sd.doc.filetype, sd.rawScore⟩ :: r.2)

/-- `formatDocumentsForContext(documents, query, maxDocs, maxChars)` of the
two-stage service: rank the documents with the keyword scorer, keep the
top `maxDocs`, and pack their best windows under the character budget. -/
def formatDocumentsForContext (documents : List Doc) (query : String)
    (maxDocs maxChars : Nat) : PackResult :=
  let scoredDocs := scoreDocumentsByKeywords query documents
  let topDocs := scoredDocs.take maxDocs
  let header := "=== DOCUMENTS ===\n\n"
  let packed := packDocs maxChars header.length topDocs
  ⟨header ++ packed.1, packed.2⟩

/-! ## Response cache -/

/-- JS whitespace test, restricted to the ASCII whitespace that appears in
queries. -/
def isWs (c : Char) : Bool := c.isWhitespace

/-- JS `String.prototype.trim`. -/
def trimChars (l : List Char) : List Char :=
  ((l.dropWhile isWs).reverse.dropWhile isWs).reverse

/-- Loop of `collapseWs`; the fuel argument only forces structural
recursion (every step consumes at least one character, so `l.length` fuel
always suffices). -/
def collapseWsGo : Nat → List Char → List Char
  | 0, _ => []
  | _, [] => []
  | fuel + 1, c :: rest =>
    if isWs c then ' ' :: collapseWsGo fuel (rest.dropWhile isWs)
    else c :: collapseWsGo fuel rest

/-- JS `replace(/\s+/g, ' ')`: every maximal whitespace run becomes one
space. -/
def collapseWs (l : List Char) : List Char := collapseWsGo l.length l

/-- Query normalization of `SearchCache.getKey`: lowercase, trim, collapse
internal whitespace runs to single spaces. -/
def normalizeQuery (q : String) : String :=
  String.mk (collapseWs (trimChars (jsToLower q).toList))

/-- A cached pipeline result. -/
structure CacheVal where
  answer : String
  sources : List PackedMeta
  documentsSelected : Nat
deriving DecidableEq

/-- JS `Map.prototype.get` on an insertion-ordered association list. -/
def mapGet (m : List (String × CacheVal)) (k : String) : Option CacheVal :=
  match m with
  | [] => none
  | (k0, v0) :: rest => if k0 = k then some v0 else mapGet rest k

/-- JS `Map.prototype.set`: update in place when the key exists, append at
the end otherwise. -/
def mapSet (m : List (String × CacheVal)) (k : String) (v : CacheVal) :
    List (String × CacheVal) :=
  match m with
  | [] => [(k, v)]
  | (k0, v0) :: rest => if k0 = k then (k, v) :: rest else (k0, v0) :: mapSet rest k v

/-- JS `Map.prototype.delete` (keys are unique in a `Map`, so deleting the
first match is exact). -/
def mapDelete (m : List (String × CacheVal)) (k : String) : List (String × CacheVal) :=
  match m with
  | [] => []
  | (k0, v0) :: rest => if k0 = k then rest else (k0, v0) :: mapDelete rest k

/-- The in-memory LRU `SearchCache`: a JS `Map` in insertion order (oldest
first) plus the capacity bound. -/
structure SearchCache where
  entries : List (String × CacheVal)
  maxSize : Nat
deriving DecidableEq

/-- A freshly constructed cache. -/
def SearchCache.empty (maxSize : Nat) : SearchCache := ⟨[], maxSize⟩

/-- `getKey(query, corpusVersion)`: the template literal
`normalizedQuery::corpusVersion`. -/
def SearchCache.getKey (q v : String) : String := normalizeQuery q ++ "::" ++ v

/-- `SearchCache.get`: on a hit, delete and re-insert the entry to promote
it to most-recently-used. -/
def SearchCache.get (c : SearchCache) (q v : String) : Option CacheVal × SearchCache :=
  let key := SearchCache.getKey q v
  match mapGet c.entries key with
  | some e => (some e, ⟨mapSet (mapDelete c.entries key) key e, c.maxSize⟩)
  | none => (none, c)

/-- `SearchCache.set`: evict the oldest entry when at capacity and the
incoming key is new, then store. -/
def SearchCache.set (c : SearchCache) (q v : String) (val : CacheVal) : SearchCache :=
  let key := SearchCache.getKey q v
  let entries :=
    if c.maxSize ≤ c.entries.length && (mapGet c.entries key).isNone
    then c.entries.tail else c.entries
  ⟨mapSet entries key val, c.maxSize⟩

/-! ## Rate limiter -/

/-- Per-client rate limit state (`{requests, blocked, blockedUntil}`). -/
structure RLEntry where
  requests : List Int
  blocked : Bool
  blockedUntil : Int
deriving DecidableEq

/-- Decision returned by `checkRateLimit`. -/
inductive RLDecision where
  | allowed (remaining : Int)
  | rejected (retryAfter : Int) (reason : String)
deriving DecidableEq

/-- Whether a decision admits the request. -/
def RLDecision.isAllowed : RLDecision → Bool
  | .allowed _ => true
  | .rejected _ _ => false

/-- The entry created for a client on its first request. -/
def freshEntry : RLEntry := ⟨[], false, 0⟩

/-- `checkRateLimit(ip)` of the route module, as a pure transition on the
client's stored entry at time `now`: a blocked client is rejected outright
until `blockedUntil`; an expired block clears the flag and the history;
timestamps outside the trailing window are dropped; at or above
`maxRequests` surviving timestamps the client is rejected and blocked for
one full window; otherwise the request is recorded and admitted. -/
def checkRateLimit (windowMs maxRequests : Nat) (stored : Option RLEntry)
    (now : Int) : RLDecision × RLEntry :=
  let windowStart : Int := now - (windowMs : Int)
  let entry := stored.getD freshEntry
  if entry.blocked && decide (now < entry.blockedUntil) then
    (.rejected ((entry.blockedUntil - now + 999) / 1000) "blocked", entry)
  else
    let entry1 :=
      if entry.blocked && decide (entry.blockedUntil ≤ now)
      then { entry with blocked := false, requests := [] } else entry
    let entry2 := { entry1 with requests := entry1.requests.filter (fun t => windowStart < t) }
    if maxRequests ≤ entry2.requests.length then
      (.rejected ((windowMs : Int) / 1000) "rate_limit",
        { entry2 with blocked := true, blockedUntil := now + (windowMs : Int) })
    else
      let entry3 := { entry2 with requests := entry2.requests ++ [now] }
      (.allowed ((maxRequests : Int) - (entry3.requests.length : Int)), entry3)

/-- A sequence of requests from one client, threaded through
`checkRateLimit`. -/
def runRateLimit (windowMs maxRequests : Nat) : List Int → RLEntry → List RLDecision × RLEntry
  | [], e => ([], e)
  | t :: ts, e =>
    let step := checkRateLimit windowMs maxRequests (some e) t
    let rest := runRateLimit windowMs maxRequests ts step.2
    (step.1 :: rest.1, rest.2)

/-! ## Two-stage pipeline

The Groq backend and `JSON.parse` are external collaborators.  Their
outcomes are passed to the embedded functions as explicit data: a Stage A
reply is the tagged parse outcome of the reply text (bare JSON array,
object wrapping the array under `files`/`documents`, or the quoted-name
regex fallback for unparseable text), and a Stage B call outcome is either
the answer text, an abort (timeout), or an error message.  Each function
also reports the backend requests it issued, so that "no call is made" and
"retried exactly once" are provable statements. -/

/-- Tagged outcome of parsing the Stage A reply text. -/
inductive ParsedSelection where
  | arr (files : List String)
  | wrapped (files : List String)
  | unparsed (files : List String)
deriving DecidableEq

/-- The filename list the parse outcome carries. -/
def ParsedSelection.files : ParsedSelection → List String
  | .arr fs => fs
  | .wrapped fs => fs
  | .unparsed fs => fs

/-- Outcome of the Stage A backend call. -/
inductive StageAResult where
  | reply (p : ParsedSelection)
  | aborted
  | failed (msg : String)
deriving DecidableEq

/-- `selectRelevantDocuments(query, documents, topN)`: throw when the API
key is missing; return `[]` for an empty corpus without calling the
backend; on a backend reply keep only names that exist in the document
set and cap at `topN`; on any backend failure (abort/timeout or error)
fall back to the keyword scorer's top `topN`.  The second component
counts backend calls issued. -/
def selectRelevantDocuments (keyOk : Bool) (r : StageAResult) (query : String)
    (documents : List Doc) (topN : Nat) : Except String (List String) × Nat :=
  if !keyOk then (.error "GROQ_API_KEY not configured", 0)
  else if documents.isEmpty then (.ok [], 0)
  else
    match r with
    | .reply p =>
      let validFiles := documents.map (·.filename)
      (.ok ((p.files.filter (fun f => validFiles.contains f)).take topN), 1)
    | .aborted =>
      let scored := scoreDocumentsByKeywords query documents
      (.ok ((scored.take topN).map (fun sd => sd.doc.filename)), 1)
    | .failed _ =>
      let scored := scoreDocumentsByKeywords query documents
      (.ok ((scored.take topN).map (fun sd => sd.doc.filename)), 1)

/-- Outcome of one Stage B backend call. -/
inductive LLMResult where
  | ok (text : String)
  | aborted
  | err (msg : String)
deriving DecidableEq

/-- A Stage B request as issued to the backend: model identifier, packed
context, character budget used to build the context, token budget. -/
structure LLMRequest where
  model : String
  context : String
  maxChars : Nat
  maxTokens : Nat
deriving DecidableEq

/-- `answer` plus `sources` returned by Stage B. -/
structure AnswerOut where
  answer : String
  sources : List PackedMeta
deriving DecidableEq

/-- Substring test (`String.prototype.includes`). -/
def hasSub (pat s : String) : Bool :=
  (List.range (s.toList.length + 1)).any (fun i => leadsWith pat.toList (s.toList.drop i))

/-- The source's rate-limit detection on an error message:
`error.message.includes('rate_limit') || error.message.includes('413')`. -/
def isRateLimitMsg (m : String) : Bool := hasSub "rate_limit" m || hasSub "413" m

/-- `generateAnswerSmall(query, selectedDocs)`: the one-shot retry with the
packer capped at 3 documents and a 5000-character budget on the low-cost
model; its own failure is thrown to the caller uncaught. -/
def generateAnswerSmall (query : String) (selectedDocs : List Doc) (r : LLMResult) :
    Except String AnswerOut × List LLMRequest :=
  let fmt := formatDocumentsForContext selectedDocs query 3 5000
  let req : LLMRequest := ⟨"llama-3.1-8b-instant", fmt.context, 5000, 512⟩
  match r with
  | .ok text =>
    (.ok ⟨text, (selectedDocs.take 3).map (fun d => ⟨d.filename, d.filetype, 0⟩)⟩, [req])
  | .aborted => (.error "aborted", [req])
  | .err m => (.error m, [req])

/-- `generateAnswer(query, selectedDocs)`: throw when the API key is
missing; fixed answer for an empty selection without calling the backend;
otherwise pack all selected documents under a 12000-character budget and
call the large model; a timeout raises the fixed timeout error; a
rate-limit (or 413) error triggers the single `generateAnswerSmall` retry,
whose own failure propagates; any other error is wrapped and thrown.  The
sources of a successful large call list every selected document; the
retry lists the first 3. -/
def generateAnswer (keyOk : Bool) (query : String) (selectedDocs : List Doc)
    (r1 r2 : LLMResult) : Except String AnswerOut × List LLMRequest :=
  if !keyOk then
    (.error "GROQ_API_KEY not configured. Get your free key at console.groq.com", [])
  else if selectedDocs.isEmpty then
    (.ok ⟨"No relevant documents found for this query.", []⟩, [])
  else
    let fmt := formatDocumentsForContext selectedDocs query selectedDocs.length 12000
    let req : LLMRequest := ⟨"llama-3.3-70b-versatile", fmt.context, 12000, 1024⟩
    match r1 with
    | .ok text =>
      (.ok ⟨text, selectedDocs.map (fun d => ⟨d.filename, d.filetype, 0⟩)⟩, [req])
    | .aborted =>
      (.error "Request timeout - the LLM took too long to respond", [req])
    | .err m =>
      if isRateLimitMsg m then
        let small := generateAnswerSmall query selectedDocs r2
        (small.1, req :: small.2)
      else
        (.error ("Failed to get response from AI: " ++ m), [req])

/-- The result of the pipeline entry. -/
structure SearchOutcome where
  answer : String
  sources : List PackedMeta
  documentsSelected : Nat
deriving DecidableEq

/-- The fixed empty-corpus message of the pipeline entry. -/
def noDocsServiceMsg : String :=
  "No documents have been ingested yet. Please add documents to the generated_documents folder."

/-- `searchDocuments(query, documents)` (two-stage pipeline entry): throw
when the API key is missing; short-circuit to the fixed message on an
empty corpus; otherwise Stage A (select, topN = 5) then Stage B (answer on
the selected documents, in original corpus order).  The second component
counts the backend calls issued by both stages. -/
def searchDocuments (keyOk : Bool) (query : String) (documents : List Doc)
    (rA : StageAResult) (rB1 rB2 : LLMResult) : Except String SearchOutcome × Nat :=
  if !keyOk then
    (.error "GROQ_API_KEY not configured. Get your free key at console.groq.com", 0)
  else if documents.isEmpty then
    (.ok ⟨noDocsServiceMsg, [], 0⟩, 0)
  else
    match selectRelevantDocuments keyOk rA query documents 5 with
    | (.error e, nA) => (.error e, nA)
    | (.ok selectedFilenames, nA) =>
      let selectedDocs := documents.filter (fun d => selectedFilenames.contains d.filename)
      match generateAnswer keyOk query selectedDocs rB1 rB2 with
      | (.error e, reqs) => (.error e, nA + reqs.length)
      | (.ok out, reqs) =>
        (.ok ⟨out.answer, out.sources, selectedDocs.length⟩, nA + reqs.length)

/-! ## HTTP route handler -/

/-- JS `String.prototype.trim` on `String`. -/
def jsTrim (s : String) : String := String.mk (trimChars s.toList)

/-- The JSON body of a successful `/api/search` response. -/
structure SearchJson where
  query : String
  response : String
  sources : List PackedMeta
  documentsSearched : Nat
  documentsSelected : Nat
  cached : Bool
deriving DecidableEq

/-- Outcome of the `/api/search` route handler. -/
inductive RouteOutcome where
  | ok (body : SearchJson)
  | tooManyRequests (retryAfter : Int)
  | badRequest (msg : String)
  | failure (status : Nat) (msg : String)
deriving DecidableEq

/-- The fixed empty-corpus message of the route. -/
def noDocsRouteMsg : String :=
  "No documents found. Please add documents to the `generated_documents` folder and try again."

/-- `router.post('/search')`: rate-limit gate, query validation, the
empty-corpus short-circuit, cache lookup, pipeline invocation, cache
store, and the error-to-status mapping.  The final component counts
pipeline (`searchDocuments`) invocations. -/
def handleSearch (stored : Option RLEntry) (now : Int) (query : String)
    (documents : List Doc) (cache : SearchCache) (corpusVersion : String)
    (keyOk : Bool) (rA : StageAResult) (rB1 rB2 : LLMResult) :
    RouteOutcome × SearchCache × Nat :=
  let rl := checkRateLimit 60000 10 stored now
  match rl.1 with
  | .rejected retryAfter _ => (.tooManyRequests retryAfter, cache, 0)
  | .allowed _ =>
    if (jsTrim query).length = 0 then
      (.badRequest "Please provide a non-empty query string", cache, 0)
    else if 2000 < query.length then
      (.badRequest "Query must be less than 2000 characters", cache, 0)
    else
      let trimmedQuery := jsTrim query
      if documents.isEmpty then
        (.ok ⟨trimmedQuery, noDocsRouteMsg, [], 0, 0, false⟩, cache, 0)
      else
        match cache.get trimmedQuery corpusVersion with
        | (some hit, cache1) =>
          (.ok ⟨trimmedQuery, hit.answer, hit.sources, documents.length,
              hit.documentsSelected, true⟩, cache1, 0)
        | (none, cache1) =>
          match searchDocuments keyOk trimmedQuery documents rA rB1 rB2 with
          | (.ok out, _) =>
            let cache2 := cache1.set trimmedQuery corpusVersion
              ⟨out.answer, out.sources, out.documentsSelected⟩
            (.ok ⟨trimmedQuery, out.answer, out.sources, documents.length,
                out.documentsSelected, false⟩, cache2, 1)
          | (.error msg, _) =>
            if hasSub "timeout" msg then
              (.failure 504 "The search took too long to complete. Please try again.", cache1, 1)
            else if hasSub "GROQ_API_KEY" msg then
              (.failure 503 msg, cache1, 1)
            else
              (.failure 500 msg, cache1, 1)

/-! ## Helper lemmas about the keyword scorer -/

theorem foldl_score (g h : List Char → ℕ) :
    ∀ (toks : List (List Char)) (s : ℕ),
      toks.foldl (fun acc t => acc + g t + h t) s
        = s + (toks.map (fun t => g t + h t)).sum := by
  intro toks
  induction toks with
  | nil => intro s; simp
  | cons t ts ih => intro s; simp [List.foldl_cons, ih]; omega

theorem pairwise_of_forall {α : Type} {R : α → α → Prop} (h : ∀ a b, R a b) :
    ∀ l : List α, l.Pairwise R := by
  intro l
  induction l with
  | nil => exact List.Pairwise.nil
  | cons a l ih => exact List.Pairwise.cons (fun b _ => h a b) ih

theorem mem_scoreDocs {query : String} {documents : List Doc} {sd : ScoredDoc}
    (h : sd ∈ scoreDocumentsByKeywords query documents) :
    sd.rawScore = specRawScore query sd.doc ∧ sd.doc ∈ documents := by
  unfold scoreDocumentsByKeywords at h
  by_cases ht : (queryTokens query).isEmpty
  · simp only [ht, if_true] at h
    obtain ⟨d, hd, rfl⟩ := List.mem_map.mp h
    refine ⟨?_, hd⟩
    simp [specRawScore, List.isEmpty_iff.mp ht]
  · simp only [ht, if_false] at h
    have h2 := (List.perm_insertionSort scoreGe _).subset h
    obtain ⟨d, hd, rfl⟩ := List.mem_map.mp h2
    refine ⟨?_, hd⟩
    simp only [specRawScore]
    rw [foldl_score]
    simp

theorem perm_scoreDocs (query : String) (documents : List Doc) :
    ((scoreDocumentsByKeywords query documents).map ScoredDoc.doc).Perm documents := by
  unfold scoreDocumentsByKeywords
  by_cases ht : (queryTokens query).isEmpty
  · simp only [ht, if_true, List.map_map]
    have : (ScoredDoc.doc ∘ fun d => (⟨d, 0, []⟩ : ScoredDoc)) = id := rfl
    rw [this, List.map_id]
  · simp only [ht, if_false]
    refine ((List.perm_insertionSort scoreGe _).map ScoredDoc.doc).trans ?_
    rw [List.map_map]
    have : (ScoredDoc.doc ∘ fun d =>
        (⟨d, (queryTokens query).foldl (fun s t =>
            s + countOcc t (jsToLower d.content).toList * 2
              + countOcc t (jsToLower d.filename).toList * 5) 0,
          List.insertionSort (· ≤ ·) ((queryTokens query).flatMap
            (fun t => occPositions t (jsToLower d.content).toList))⟩ : ScoredDoc)) = id := rfl
    rw [this, List.map_id]

theorem length_scoreDocs (query : String) (documents : List Doc) :
    (scoreDocumentsByKeywords query documents).length = documents.length := by
  have h := (perm_scoreDocs query documents).length_eq
  simpa using h

theorem pairwise_scoreGe (query : String) (documents : List Doc) :
    (scoreDocumentsByKeywords query documents).Pairwise scoreGe := by
  unfold scoreDocumentsByKeywords
  by_cases ht : (queryTokens query).isEmpty
  · simp only [ht, if_true]
    refine List.pairwise_map.mpr (pairwise_of_forall (fun a b => ?_) documents)
    simp [scoreGe]
  · simp only [ht, if_false]
    exact List.sorted_insertionSort scoreGe _

theorem scoreGe_real {a b : ScoredDoc} (h : scoreGe a b) :
    (b.rawScore : ℝ) / Real.sqrt (lenEff b.doc) ≤ (a.rawScore : ℝ) / Real.sqrt (lenEff a.doc) := by
  have hla : (0 : ℝ) < Real.sqrt (lenEff a.doc) :=
    Real.sqrt_pos.mpr (by exact_mod_cast lenEff_pos a.doc)
  have hlb : (0 : ℝ) < Real.sqrt (lenEff b.doc) :=
    Real.sqrt_pos.mpr (by exact_mod_cast lenEff_pos b.doc)
  rw [div_le_div_iff₀ hlb hla]
  have hcast : ((b.rawScore : ℝ)) ^ 2 * (lenEff a.doc : ℝ)
      ≤ ((a.rawScore : ℝ)) ^ 2 * (lenEff b.doc : ℝ) := by exact_mod_cast h
  calc (b.rawScore : ℝ) * Real.sqrt (lenEff a.doc)
      = Real.sqrt (((b.rawScore : ℝ)) ^ 2 * (lenEff a.doc : ℝ)) := by
        rw [Real.sqrt_mul (sq_nonneg _), Real.sqrt_sq (by positivity)]
    _ ≤ Real.sqrt (((a.rawScore : ℝ)) ^ 2 * (lenEff b.doc : ℝ)) := Real.sqrt_le_sqrt hcast
    _ = (a.rawScore : ℝ) * Real.sqrt (lenEff b.doc) := by
        rw [Real.sqrt_mul (sq_nonneg _), Real.sqrt_sq (by positivity)]

/-- C3: `scoreDocumentsByKeywords` computes each document's raw score as
the reference definition (2 per case-insensitive body occurrence, 5 per
filename occurrence of each usable query token), normalizes by the square
root of the (guarded) content length, and returns a permutation of the
corpus sorted by the normalized score in descending order; with no usable
tokens every document gets score 0 and keeps its original position. -/
theorem keyword_scorer_spec (query : String) (documents : List Doc) :
    (∀ sd ∈ scoreDocumentsByKeywords query documents,
        sd.rawScore = specRawScore query sd.doc ∧ sd.doc ∈ documents)
    ∧ ((scoreDocumentsByKeywords query documents).map ScoredDoc.doc).Perm documents
    ∧ (scoreDocumentsByKeywords query documents).Pairwise (fun a b =>
        (b.rawScore : ℝ) / Real.sqrt (lenEff b.doc)
          ≤ (a.rawScore : ℝ) / Real.sqrt (lenEff a.doc))
    ∧ (queryTokens query = [] →
        scoreDocumentsByKeywords query documents
          = documents.map (fun d => ⟨d, 0, []⟩)) := by
  refine ⟨fun sd h => mem_scoreDocs h, perm_scoreDocs query documents,
    (pairwise_scoreGe query documents).imp (fun h => scoreGe_real h), fun ht => ?_⟩
  unfold scoreDocumentsByKeywords
  simp [ht]

/-- Witness for C3 at a concrete query and corpus. -/
theorem keyword_scorer_spec_witness :
    (∀ sd ∈ scoreDocumentsByKeywords "zebra" [⟨"a.txt", "txt", "alpha"⟩],
        sd.rawScore = specRawScore "zebra" sd.doc ∧ sd.doc ∈ [⟨"a.txt", "txt", "alpha"⟩])
    ∧ ((scoreDocumentsByKeywords "zebra" [⟨"a.txt", "txt", "alpha"⟩]).map ScoredDoc.doc).Perm
        [⟨"a.txt", "txt", "alpha"⟩]
    ∧ (scoreDocumentsByKeywords "zebra" [⟨"a.txt", "txt", "alpha"⟩]).Pairwise (fun a b =>
        (b.rawScore : ℝ) / Real.sqrt (lenEff b.doc)
          ≤ (a.rawScore : ℝ) / Real.sqrt (lenEff a.doc))
    ∧ (queryTokens "zebra" = [] →
        scoreDocumentsByKeywords "zebra" [⟨"a.txt", "txt", "alpha"⟩]
          = [⟨"a.txt", "txt", "alpha"⟩].map (fun d => ⟨d, 0, []⟩)) :=
  keyword_scorer_spec "zebra" [⟨"a.txt", "txt", "alpha"⟩]

/-- C2: when the Stage A backend call fails for any reason (abort/timeout
or error), `selectRelevantDocuments` returns exactly the filenames of the
keyword scorer's top-`topN` ranked documents; the shortlist is non-empty
whenever documents exist (and `topN > 0`, as with the default 5), and is
drawn only from the supplied corpus. -/
theorem stage_a_fallback_ranking (query : String) (documents : List Doc)
    (topN : Nat) (msg : String) (hne : documents ≠ []) (htop : 0 < topN) :
    selectRelevantDocuments true .aborted query documents topN
      = (.ok (((scoreDocumentsByKeywords query documents).take topN).map
          (fun sd => sd.doc.filename)), 1)
    ∧ selectRelevantDocuments true (.failed msg) query documents topN
      = (.ok (((scoreDocumentsByKeywords query documents).take topN).map
          (fun sd => sd.doc.filename)), 1)
    ∧ ((scoreDocumentsByKeywords query documents).take topN).map
        (fun sd => sd.doc.filename) ≠ []
    ∧ ∀ f ∈ ((scoreDocumentsByKeywords query documents).take topN).map
        (fun sd => sd.doc.filename), f ∈ documents.map Doc.filename := by
  have hempty : documents.isEmpty = false := by
    simpa [List.isEmpty_iff] using hne
  refine ⟨by simp [selectRelevantDocuments, hempty], by simp [selectRelevantDocuments, hempty],
    ?_, ?_⟩
  · have hlen : (((scoreDocumentsByKeywords query documents).take topN).map
        (fun sd => sd.doc.filename)).length = min topN documents.length := by
      simp [length_scoreDocs]
    intro hcon
    rw [hcon] at hlen
    have hdl : 0 < documents.length := List.length_pos.mpr hne
    simp at hlen
    omega
  · intro f hf
    obtain ⟨sd, hsd, rfl⟩ := List.mem_map.mp hf
    have hmem : sd ∈ scoreDocumentsByKeywords query documents :=
      List.mem_of_mem_take hsd
    exact List.mem_map.mpr ⟨sd.doc, (mem_scoreDocs hmem).2, rfl⟩

/-- Witness for C2. -/
theorem stage_a_fallback_ranking_witness :
    ([⟨"a.txt", "txt", "alpha"⟩] : List Doc) ≠ [] ∧ 0 < 5 ∧
    (selectRelevantDocuments true .aborted "zebra" [⟨"a.txt", "txt", "alpha"⟩] 5
      = (.ok (((scoreDocumentsByKeywords "zebra" [⟨"a.txt", "txt", "alpha"⟩]).take 5).map
          (fun sd => sd.doc.filename)), 1)
    ∧ selectRelevantDocuments true (.failed "boom") "zebra" [⟨"a.txt", "txt", "alpha"⟩] 5
      = (.ok (((scoreDocumentsByKeywords "zebra" [⟨"a.txt", "txt", "alpha"⟩]).take 5).map
          (fun sd => sd.doc.filename)), 1)
    ∧ ((scoreDocumentsByKeywords "zebra" [⟨"a.txt", "txt", "alpha"⟩]).take 5).map
        (fun sd => sd.doc.filename) ≠ []
    ∧ ∀ f ∈ ((scoreDocumentsByKeywords "zebra" [⟨"a.txt", "txt", "alpha"⟩]).take 5).map
        (fun sd => sd.doc.filename), f ∈ ([⟨"a.txt", "txt", "alpha"⟩] : List Doc).map Doc.filename) :=
  ⟨by decide, by decide,
    stage_a_fallback_ranking "zebra" [⟨"a.txt", "txt", "alpha"⟩] 5 "boom" (by decide) (by decide)⟩

/-- C8: whatever the Stage A backend replies (array, wrapped object, or
regex-extracted names from unparseable text), the returned filename list
contains only filenames of the supplied document set, has length at most
`topN`, and silently discards every invented name. -/
theorem stage_a_output_validated (p : ParsedSelection) (query : String)
    (documents : List Doc) (topN : Nat) :
    ∃ fs, (selectRelevantDocuments true (.reply p) query documents topN).1 = .ok fs
      ∧ fs.length ≤ topN
      ∧ (∀ f ∈ fs, f ∈ documents.map Doc.filename)
      ∧ ∀ f ∈ p.files, f ∉ documents.map Doc.filename → f ∉ fs := by
  by_cases h : documents.isEmpty
  · exact ⟨[], by simp [selectRelevantDocuments, h], by simp, by simp, by simp⟩
  · refine ⟨(p.files.filter
        (fun f => (documents.map (·.filename)).contains f)).take topN,
      by simp [selectRelevantDocuments, h], List.length_take_le topN _, ?_, ?_⟩
    · intro f hf
      have hf2 := List.mem_of_mem_take hf
      have hf3 := (List.mem_filter.mp hf2).2
      simpa using hf3
    · intro f _ hnot hin
      have hf2 := List.mem_of_mem_take hin
      have hf3 := (List.mem_filter.mp hf2).2
      exact hnot (by simpa using hf3)

/-- Witness for C8. -/
theorem stage_a_output_validated_witness :
    ∃ fs, (selectRelevantDocuments true
        (.reply (.arr ["a.txt", "ghost.txt"])) "q" [⟨"a.txt", "txt", "alpha"⟩] 5).1 = .ok fs
      ∧ fs.length ≤ 5
      ∧ (∀ f ∈ fs, f ∈ ([⟨"a.txt", "txt", "alpha"⟩] : List Doc).map Doc.filename)
      ∧ ∀ f ∈ (ParsedSelection.arr ["a.txt", "ghost.txt"]).files,
          f ∉ ([⟨"a.txt", "txt", "alpha"⟩] : List Doc).map Doc.filename → f ∉ fs :=
  stage_a_output_validated (.arr ["a.txt", "ghost.txt"]) "q" [⟨"a.txt", "txt", "alpha"⟩] 5

/-- C1: on an empty corpus (with the API key configured) the pipeline
entry returns the fixed no-documents message with no sources and
`documentsSelected = 0` without issuing any backend call, and the route
(under an admitted, valid request) replies with its fixed message,
`documentsSearched = 0`, `documentsSelected = 0`, without invoking the
pipeline. -/
theorem empty_corpus_short_circuit (query : String) (rA : StageAResult)
    (rB1 rB2 : LLMResult) (stored : Option RLEntry) (now : Int)
    (cache : SearchCache) (corpusVersion : String) (keyOk : Bool) (rem : Int)
    (hallow : (checkRateLimit 60000 10 stored now).1 = .allowed rem)
    (hq1 : (jsTrim query).length ≠ 0) (hq2 : query.length ≤ 2000) :
    searchDocuments true query [] rA rB1 rB2 = (.ok ⟨noDocsServiceMsg, [], 0⟩, 0)
    ∧ handleSearch stored now query [] cache corpusVersion keyOk rA rB1 rB2
        = (.ok ⟨jsTrim query, noDocsRouteMsg, [], 0, 0, false⟩, cache, 0) := by
  constructor
  · rfl
  · simp only [handleSearch]
    rw [hallow]
    simp [hq1, Nat.not_lt.mpr hq2]

/-- Witness for C1. -/
theorem empty_corpus_short_circuit_witness :
    (checkRateLimit 60000 10 none 0).1 = .allowed 9
    ∧ (jsTrim "hello").length ≠ 0 ∧ ("hello" : String).length ≤ 2000
    ∧ (searchDocuments true "hello" [] .aborted .aborted .aborted
        = (.ok ⟨noDocsServiceMsg, [], 0⟩, 0)
      ∧ handleSearch none 0 "hello" [] (SearchCache.empty 100) "v" true .aborted .aborted .aborted
        = (.ok ⟨jsTrim "hello", noDocsRouteMsg, [], 0, 0, false⟩, SearchCache.empty 100, 0)) :=
  ⟨by decide, by decide, by decide,
    empty_corpus_short_circuit "hello" .aborted .aborted .aborted none 0
      (SearchCache.empty 100) "v" true 9 (by decide) (by decide) (by decide)⟩

/-- The counterexample corpus for C7: four selected documents where the
fourth one is the only keyword match for the query. -/
def zebraDocs : List Doc :=
  [⟨"a.txt", "txt", "alpha beta"⟩, ⟨"b.txt", "txt", "beta gamma"⟩,
   ⟨"c.txt", "txt", "gamma delta"⟩, ⟨"d.txt", "txt", "zebra zebra zebra"⟩]

/-- C7 counterexample: the rate-limited retry does NOT restrict its context
to the first 3 selected documents — the retry request packs the keyword
scorer's top 3 of the selected documents, so with selection
`[a, b, c, d]` and query "zebra" the retry context contains `d.txt`,
which is not among the first 3 selected documents. -/
theorem stage_b_retry_not_first3_cex :
    (generateAnswer true "zebra" zebraDocs (.err "rate_limit") (.ok "ans")).2.length = 2
    ∧ ((generateAnswer true "zebra" zebraDocs (.err "rate_limit") (.ok "ans")).2.getD 1
        ⟨"", "", 0, 0⟩).context = (formatDocumentsForContext zebraDocs "zebra" 3 5000).context
    ∧ hasSub "[d.txt]" (((generateAnswer true "zebra" zebraDocs
        (.err "rate_limit") (.ok "ans")).2.getD 1 ⟨"", "", 0, 0⟩).context) = true
    ∧ "d.txt" ∈ (formatDocumentsForContext zebraDocs "zebra" 3 5000).selectedDocs.map
        PackedMeta.filename
    ∧ "d.txt" ∉ (zebraDocs.take 3).map Doc.filename := by
  refine ⟨by decide, by decide, by decide, by decide, by decide⟩

/-- C7 (amended): on a rate-limit (or 413) Stage B failure,
`generateAnswer` retries exactly once via `generateAnswerSmall`: the
request list is exactly the large request (all selected documents,
12000-character budget, `llama-3.3-70b-versatile`) followed by the single
small request (the packer capped at 3 documents — the keyword scorer's top
3 of the selected documents — 5000-character budget,
`llama-3.1-8b-instant`); on a successful retry the reported sources are
the first 3 selected documents, and a failure of the retry propagates to
the caller with no further request. -/
theorem stage_b_retry_once (query : String) (selectedDocs : List Doc)
    (m : String) (r2 : LLMResult) (hne : selectedDocs ≠ [])
    (hrl : isRateLimitMsg m = true) :
    generateAnswer true query selectedDocs (.err m) r2
      = ((generateAnswerSmall query selectedDocs r2).1,
         [⟨"llama-3.3-70b-versatile",
            (formatDocumentsForContext selectedDocs query selectedDocs.length 12000).context,
            12000, 1024⟩,
          ⟨"llama-3.1-8b-instant",
            (formatDocumentsForContext selectedDocs query 3 5000).context, 5000, 512⟩])
    ∧ (∀ t, r2 = .ok t → (generateAnswerSmall query selectedDocs r2).1
        = .ok ⟨t, (selectedDocs.take 3).map (fun d => ⟨d.filename, d.filetype, 0⟩)⟩)
    ∧ (∀ m2, r2 = .err m2 → (generateAnswerSmall query selectedDocs r2).1 = .error m2) := by
  have hempty : selectedDocs.isEmpty = false := by
    simpa [List.isEmpty_iff] using hne
  refine ⟨?_, ?_, ?_⟩
  · cases r2 <;> simp [generateAnswer, generateAnswerSmall, hempty, hrl]
  · intro t ht
    subst ht
    simp [generateAnswerSmall]
  · intro m2 hm
    subst hm
    simp [generateAnswerSmall]

/-- Witness for C7 (amended). -/
theorem stage_b_retry_once_witness :
    zebraDocs ≠ [] ∧ isRateLimitMsg "rate_limit" = true
    ∧ (generateAnswer true "zebra" zebraDocs (.err "rate_limit") (.ok "ans")
      = ((generateAnswerSmall "zebra" zebraDocs (.ok "ans")).1,
         [⟨"llama-3.3-70b-versatile",
            (formatDocumentsForContext zebraDocs "zebra" zebraDocs.length 12000).context,
            12000, 1024⟩,
          ⟨"llama-3.1-8b-instant",
            (formatDocumentsForContext zebraDocs "zebra" 3 5000).context, 5000, 512⟩])
    ∧ (∀ t, (LLMResult.ok "ans") = .ok t → (generateAnswerSmall "zebra" zebraDocs (.ok "ans")).1
        = .ok ⟨t, (zebraDocs.take 3).map (fun d => ⟨d.filename, d.filetype, 0⟩)⟩)
    ∧ (∀ m2, (LLMResult.ok "ans") = .err m2 →
        (generateAnswerSmall "zebra" zebraDocs (.ok "ans")).1 = .error m2)) :=
  ⟨by decide, by decide,
    stage_b_retry_once "zebra" zebraDocs "rate_limit" (.ok "ans") (by decide) (by decide)⟩

/-! ## Cache keying -/

/-- Whether a corpus version string is free of colons (every version the
route generates — `"<count>-<mtime>"`, `"empty"`, `"db-..."`,
`"error-..."` — is). -/
def colonFree (s : String) : Bool := !(s.toList.contains ':')

theorem revSep : ∀ (rb rd ra rc : List Char), ':' ∉ rb → ':' ∉ rd →
    rb ++ ':' :: ':' :: ra = rd ++ ':' :: ':' :: rc → rb = rd ∧ ra = rc := by
  intro rb
  induction rb with
  | nil =>
    intro rd ra rc _ h2 h
    cases rd with
    | nil => simpa using h
    | cons y ys =>
      exfalso
      simp only [List.nil_append, List.cons_append, List.cons.injEq] at h
      exact h2 (by simp [h.1.symm])
  | cons x xs ih =>
    intro rd ra rc h1 h2 h
    cases rd with
    | nil =>
      exfalso
      simp only [List.nil_append, List.cons_append, List.cons.injEq] at h
      exact h1 (by simp [h.1])
    | cons y ys =>
      simp only [List.cons_append, List.cons.injEq] at h
      have h3 : ':' ∉ xs := fun hm => h1 (List.mem_cons_of_mem _ hm)
      have h4 : ':' ∉ ys := fun hm => h2 (List.mem_cons_of_mem _ hm)
      obtain ⟨he1, he2⟩ := ih ys ra rc h3 h4 h.2
      exact ⟨by rw [h.1, he1], he2⟩

theorem getKey_inj (q1 v1 q2 v2 : String) (h1 : colonFree v1 = true)
    (h2 : colonFree v2 = true)
    (h : SearchCache.getKey q1 v1 = SearchCache.getKey q2 v2) :
    normalizeQuery q1 = normalizeQuery q2 ∧ v1 = v2 := by
  have hd : (normalizeQuery q1).data ++ ':' :: ':' :: v1.data
      = (normalizeQuery q2).data ++ ':' :: ':' :: v2.data := by
    have := congrArg String.data h
    simpa [SearchCache.getKey, String.data_append] using this
  have hrev : v1.data.reverse ++ ':' :: ':' :: (normalizeQuery q1).data.reverse
      = v2.data.reverse ++ ':' :: ':' :: (normalizeQuery q2).data.reverse := by
    have := congrArg List.reverse hd
    simpa [List.reverse_append] using this
  have hm1 : ':' ∉ v1.data.reverse := by
    simp only [List.mem_reverse]
    intro hm
    have ha : v1.toList.any (fun x => ':' == x) = true :=
      List.any_eq_true.mpr ⟨':', hm, by simp⟩
    simp only [colonFree, Bool.not_eq_true', List.contains_eq_any_beq] at h1
    rw [h1] at ha
    exact Bool.false_ne_true ha
  have hm2 : ':' ∉ v2.data.reverse := by
    simp only [List.mem_reverse]
    intro hm
    have ha : v2.toList.any (fun x => ':' == x) = true :=
      List.any_eq_true.mpr ⟨':', hm, by simp⟩
    simp only [colonFree, Bool.not_eq_true', List.contains_eq_any_beq] at h2
    rw [h2] at ha
    exact Bool.false_ne_true ha
  obtain ⟨hv, hq⟩ := revSep _ _ _ _ hm1 hm2 hrev
  constructor
  · apply String.ext
    have := congrArg List.reverse hq
    simpa using this
  · apply String.ext
    have := congrArg List.reverse hv
    simpa using this

/-- C4 counterexample: the cache key is the string concatenation
`normalize(query) ++ "::" ++ corpusVersion`, so the pairs
`("a:", "c")` and `("a", ":c")` collide: a `set` under the first pair is
returned by a `get` under the second although neither the normalized
queries nor the corpus versions agree — the claimed if-and-only-if
characterization fails. -/
theorem cache_key_concat_cex :
    ¬(((((SearchCache.empty 100).set "a:" "c" ⟨"ans", [], 1⟩).get "a" ":c").1
          = some ⟨"ans", [], 1⟩)
        ↔ (normalizeQuery "a" = normalizeQuery "a:" ∧ (":c" : String) = "c")) := by
  decide

/-- C4 (amended): starting from an empty cache, a `set` under
`(q1, v1)` followed by a `get` under `(q2, v2)` returns the stored value
iff the concatenated keys agree; whenever the corpus versions contain no
colon character (as every version generated by the route does), this is
equivalent to `normalize(q2) = normalize(q1) ∧ v2 = v1`.  In particular
"Budget?", " budget? " and "BUDGET?" produce the same cache key, and a
`get` with a different (colon-free) corpus version misses even for an
identical query string. -/
theorem cache_key_normalized_iff (q1 v1 q2 v2 : String) (val : CacheVal)
    (h1 : colonFree v1 = true) (h2 : colonFree v2 = true) :
    ((((SearchCache.empty 100).set q1 v1 val).get q2 v2).1 = some val
      ↔ (normalizeQuery q2 = normalizeQuery q1 ∧ v2 = v1))
    ∧ (∀ v : String, SearchCache.getKey "Budget?" v = SearchCache.getKey " budget? " v
        ∧ SearchCache.getKey " budget? " v = SearchCache.getKey "BUDGET?" v)
    ∧ (v2 ≠ v1 → (((SearchCache.empty 100).set q1 v1 val).get q2 v2).1 = none) := by
  have hset : ((SearchCache.empty 100).set q1 v1 val).entries
      = [(SearchCache.getKey q1 v1, val)] := rfl
  have hget : ∀ k2 k1 w, mapGet [(k1, w)] k2 = if k1 = k2 then some w else none :=
    fun _ _ _ => rfl
  have hkey : (((SearchCache.empty 100).set q1 v1 val).get q2 v2).1
      = (if SearchCache.getKey q1 v1 = SearchCache.getKey q2 v2 then some val else none) := by
    simp only [SearchCache.get, hset, hget]
    by_cases hk : SearchCache.getKey q1 v1 = SearchCache.getKey q2 v2 <;> simp [hk]
  refine ⟨?_, ?_, ?_⟩
  · rw [hkey]
    constructor
    · intro hhit
      by_cases hk : SearchCache.getKey q1 v1 = SearchCache.getKey q2 v2
      · obtain ⟨hq, hv⟩ := getKey_inj q1 v1 q2 v2 h1 h2 hk
        exact ⟨hq.symm, hv.symm⟩
      · simp [hk] at hhit
    · intro ⟨hq, hv⟩
      have hk : SearchCache.getKey q1 v1 = SearchCache.getKey q2 v2 := by
        simp [SearchCache.getKey, hq, hv]
      simp [hk]
  · intro v
    have e1 : normalizeQuery "Budget?" = normalizeQuery " budget? " := by decide
    have e2 : normalizeQuery " budget? " = normalizeQuery "BUDGET?" := by decide
    exact ⟨by simp [SearchCache.getKey, e1], by simp [SearchCache.getKey, e2]⟩
  · intro hv
    rw [hkey]
    by_cases hk : SearchCache.getKey q1 v1 = SearchCache.getKey q2 v2
    · exact absurd (getKey_inj q1 v1 q2 v2 h1 h2 hk).2 (fun h => hv h.symm)
    · simp [hk]

/-- Witness for C4 (amended). -/
theorem cache_key_normalized_iff_witness :
    colonFree "5-1700000" = true ∧
    (((((SearchCache.empty 100).set "Budget?" "5-1700000" ⟨"ans", [], 2⟩).get
          " budget? " "5-1700000").1 = some ⟨"ans", [], 2⟩
      ↔ (normalizeQuery " budget? " = normalizeQuery "Budget?"
          ∧ ("5-1700000" : String) = "5-1700000"))
    ∧ (∀ v : String, SearchCache.getKey "Budget?" v = SearchCache.getKey " budget? " v
        ∧ SearchCache.getKey " budget? " v = SearchCache.getKey "BUDGET?" v)
    ∧ (("5-1700000" : String) ≠ "5-1700000" →
        ((((SearchCache.empty 100).set "Budget?" "5-1700000" ⟨"ans", [], 2⟩).get
          " budget? " "5-1700000").1 = none))) :=
  ⟨by decide,
    cache_key_normalized_iff "Budget?" "5-1700000" " budget? " "5-1700000" ⟨"ans", [], 2⟩
      (by decide) (by decide)⟩

/-! ## LRU policy -/

theorem mapGet_eq_none_iff (m : List (String × CacheVal)) (k : String) :
    mapGet m k = none ↔ k ∉ m.map Prod.fst := by
  induction m with
  | nil => simp [mapGet]
  | cons e rest ih =>
    obtain ⟨k0, v0⟩ := e
    by_cases hk : k0 = k
    · subst hk
      simp [mapGet]
    · simp [mapGet, hk, ih, Ne.symm hk]

theorem mapGet_isSome_of_mem {m : List (String × CacheVal)} {k : String}
    (h : k ∈ m.map Prod.fst) : ∃ v, mapGet m k = some v := by
  induction m with
  | nil => simp at h
  | cons e rest ih =>
    obtain ⟨k0, v0⟩ := e
    by_cases hk : k0 = k
    · exact ⟨v0, by simp [mapGet, hk]⟩
    · have h2 : k ∈ rest.map Prod.fst := by
        simp only [List.map_cons, List.mem_cons] at h
        exact h.resolve_left (fun he => hk he.symm)
      obtain ⟨v, hv⟩ := ih h2
      exact ⟨v, by simp [mapGet, hk, hv]⟩

theorem mapSet_map_fst_of_mem {m : List (String × CacheVal)} {k : String} (v : CacheVal)
    (h : k ∈ m.map Prod.fst) : (mapSet m k v).map Prod.fst = m.map Prod.fst := by
  induction m with
  | nil => simp at h
  | cons e rest ih =>
    obtain ⟨k0, v0⟩ := e
    by_cases hk : k0 = k
    · subst hk
      simp [mapSet]
    · have h2 : k ∈ rest.map Prod.fst := by
        simp only [List.map_cons, List.mem_cons] at h
        exact h.resolve_left (fun he => hk he.symm)
      simp [mapSet, hk, ih h2]

theorem mapSet_of_not_mem {m : List (String × CacheVal)} {k : String} (v : CacheVal)
    (h : k ∉ m.map Prod.fst) : mapSet m k v = m ++ [(k, v)] := by
  induction m with
  | nil => simp [mapSet]
  | cons e rest ih =>
    obtain ⟨k0, v0⟩ := e
    simp only [List.map_cons, List.mem_cons] at h
    push_neg at h
    have hne : ¬k0 = k := fun he => h.1 he.symm
    simp [mapSet, hne, ih h.2]

theorem mapDelete_map_fst (m : List (String × CacheVal)) (k : String) :
    (mapDelete m k).map Prod.fst = (m.map Prod.fst).erase k := by
  induction m with
  | nil => simp [mapDelete]
  | cons e rest ih =>
    obtain ⟨k0, v0⟩ := e
    by_cases hk : k0 = k
    · subst hk
      simp [mapDelete, List.erase_cons]
    · simp [mapDelete, hk, List.erase_cons, ih]

theorem set_full_fresh (c : SearchCache) (q v : String) (val : CacheVal)
    (hfull : c.maxSize ≤ c.entries.length)
    (hout : SearchCache.getKey q v ∉ c.entries.map Prod.fst) :
    (c.set q v val).entries.map Prod.fst
      = (c.entries.map Prod.fst).tail ++ [SearchCache.getKey q v] := by
  have hnone : mapGet c.entries (SearchCache.getKey q v) = none :=
    (mapGet_eq_none_iff _ _).mpr hout
  have hcond : (decide (c.maxSize ≤ c.entries.length)
      && (mapGet c.entries (SearchCache.getKey q v)).isNone) = true := by
    simp [hfull, hnone]
  have htail : SearchCache.getKey q v ∉ c.entries.tail.map Prod.fst := by
    intro hm
    exact hout (by
      have : c.entries.tail.map Prod.fst = (c.entries.map Prod.fst).tail := by
        cases c.entries <;> simp
      rw [this] at hm
      exact List.mem_of_mem_tail hm)
  simp only [SearchCache.set, hcond, if_true]
  rw [mapSet_of_not_mem val htail]
  have : c.entries.tail.map Prod.fst = (c.entries.map Prod.fst).tail := by
    cases c.entries <;> simp
  simp [this]

/-- C5: for a cache at capacity with distinct keys, a `set` under a fresh
key evicts exactly the oldest (least-recently-touched) entry; a `get`
promotes its entry to most-recently-used, so that entry survives the next
eviction; and a `set` whose key is already present evicts nothing. -/
theorem lru_eviction_policy (c : SearchCache) (q1 v1 q2 v2 : String) (val : CacheVal)
    (hnd : (c.entries.map Prod.fst).Nodup)
    (hfull : c.entries.length = c.maxSize)
    (hsz : 2 ≤ c.maxSize)
    (hin : SearchCache.getKey q1 v1 ∈ c.entries.map Prod.fst)
    (hout : SearchCache.getKey q2 v2 ∉ c.entries.map Prod.fst) :
    ((c.set q2 v2 val).entries.map Prod.fst
        = (c.entries.map Prod.fst).tail ++ [SearchCache.getKey q2 v2])
    ∧ (((c.get q1 v1).2).entries.map Prod.fst
        = ((c.entries.map Prod.fst).erase (SearchCache.getKey q1 v1))
            ++ [SearchCache.getKey q1 v1])
    ∧ SearchCache.getKey q1 v1
        ∈ ((((c.get q1 v1).2).set q2 v2 val).entries.map Prod.fst)
    ∧ (c.set q1 v1 val).entries.map Prod.fst = c.entries.map Prod.fst := by
  obtain ⟨e, he⟩ := mapGet_isSome_of_mem hin
  have hpromote : ((c.get q1 v1).2).entries.map Prod.fst
      = ((c.entries.map Prod.fst).erase (SearchCache.getKey q1 v1))
          ++ [SearchCache.getKey q1 v1] := by
    simp only [SearchCache.get, he]
    have hdel : SearchCache.getKey q1 v1
        ∉ (mapDelete c.entries (SearchCache.getKey q1 v1)).map Prod.fst := by
      rw [mapDelete_map_fst]
      intro hm
      exact ((List.Nodup.mem_erase_iff hnd).mp hm).1 rfl
    rw [mapSet_of_not_mem e hdel]
    simp [mapDelete_map_fst]
  refine ⟨set_full_fresh c q2 v2 val (le_of_eq hfull.symm) hout, hpromote, ?_, ?_⟩
  · have hlen1 : ((c.get q1 v1).2).entries.length = c.entries.length := by
      have h1 := congrArg List.length hpromote
      have h2 : ((c.get q1 v1).2).entries.length
          = (((c.get q1 v1).2).entries.map Prod.fst).length := by simp
      have h3 : ((c.entries.map Prod.fst).erase (SearchCache.getKey q1 v1)).length
          = (c.entries.map Prod.fst).length - 1 := List.length_erase_of_mem hin
      have h4 : 0 < (c.entries.map Prod.fst).length := by
        exact List.length_pos.mpr (List.ne_nil_of_mem hin)
      rw [h2, h1, List.length_append, h3]
      simp at h4 ⊢
      omega
    have hmax : ((c.get q1 v1).2).maxSize = c.maxSize := by
      simp only [SearchCache.get, he]
    have hout2 : SearchCache.getKey q2 v2 ∉ ((c.get q1 v1).2).entries.map Prod.fst := by
      rw [hpromote]
      intro hm
      rcases List.mem_append.mp hm with hm1 | hm2
      · exact hout (List.mem_of_mem_erase hm1)
      · have : SearchCache.getKey q2 v2 = SearchCache.getKey q1 v1 := by simpa using hm2
        exact hout (this ▸ hin)
    have hstep := set_full_fresh ((c.get q1 v1).2) q2 v2 val
      (by rw [hmax, hlen1, hfull]) hout2
    rw [hstep, hpromote]
    have heraselen : 0 < ((c.entries.map Prod.fst).erase (SearchCache.getKey q1 v1)).length := by
      rw [List.length_erase_of_mem hin]
      have : c.maxSize ≤ (c.entries.map Prod.fst).length := by simp [hfull]
      omega
    obtain ⟨h0, t0, hht⟩ := List.exists_cons_of_ne_nil (List.length_pos.mp heraselen)
    rw [hht]
    simp
  · have hsome : (mapGet c.entries (SearchCache.getKey q1 v1)).isNone = false := by
      simp [he]
    have hcond : (decide (c.maxSize ≤ c.entries.length)
        && (mapGet c.entries (SearchCache.getKey q1 v1)).isNone) = false := by
      simp [hsome]
    simp only [SearchCache.set, hcond, if_false]
    exact mapSet_map_fst_of_mem val hin

/-- Witness for C5 on a concrete two-entry cache at capacity. -/
theorem lru_eviction_policy_witness :
    ((⟨[(SearchCache.getKey "a" "v", ⟨"x", [], 0⟩),
        (SearchCache.getKey "b" "v", ⟨"y", [], 0⟩)], 2⟩ : SearchCache).entries.map
          Prod.fst).Nodup
    ∧ ((((⟨[(SearchCache.getKey "a" "v", ⟨"x", [], 0⟩),
        (SearchCache.getKey "b" "v", ⟨"y", [], 0⟩)], 2⟩ : SearchCache).set "c" "v"
          ⟨"z", [], 0⟩).entries.map Prod.fst
        = ([SearchCache.getKey "a" "v", SearchCache.getKey "b" "v"]).tail
            ++ [SearchCache.getKey "c" "v"])
      ∧ SearchCache.getKey "a" "v"
        ∈ (((((⟨[(SearchCache.getKey "a" "v", ⟨"x", [], 0⟩),
            (SearchCache.getKey "b" "v", ⟨"y", [], 0⟩)], 2⟩ : SearchCache).get "a" "v").2).set
              "c" "v" ⟨"z", [], 0⟩).entries.map Prod.fst)) := by
  have h := lru_eviction_policy
    ⟨[(SearchCache.getKey "a" "v", ⟨"x", [], 0⟩),
      (SearchCache.getKey "b" "v", ⟨"y", [], 0⟩)], 2⟩
    "a" "v" "c" "v" ⟨"z", [], 0⟩ (by decide) (by decide) (by decide) (by decide) (by decide)
  exact ⟨by decide, h.1, h.2.2.1⟩

/-! ## Admission control -/

theorem runRL_all_admitted :
    ∀ (ts acc : List Int),
      (∀ s ∈ acc ++ ts, ∀ t ∈ acc ++ ts, t - s < (60000 : Int)) →
      acc.length + ts.length ≤ 10 →
      (∀ d ∈ (runRateLimit 60000 10 ts ⟨acc, false, 0⟩).1, d.isAllowed = true)
      ∧ (runRateLimit 60000 10 ts ⟨acc, false, 0⟩).2 = ⟨acc ++ ts, false, 0⟩ := by
  intro ts
  induction ts with
  | nil =>
    intro acc _ _
    refine ⟨by simp [runRateLimit], by simp [runRateLimit]⟩
  | cons t rest ih =>
    intro acc hspan hlen
    have hfilter : acc.filter (fun s => decide (t - (60000 : Int) < s)) = acc := by
      apply List.filter_eq_self.mpr
      intro s hs
      have h1 : t - s < (60000 : Int) :=
        hspan s (by simp [hs]) t (by simp)
      simp only [decide_eq_true_eq]
      omega
    have hunder : ¬ (10 ≤ acc.length) := by
      simp only [List.length_cons] at hlen
      omega
    have hstep : checkRateLimit 60000 10 (some ⟨acc, false, 0⟩) t
        = (.allowed (10 - ((acc.length : Int) + 1)), ⟨acc ++ [t], false, 0⟩) := by
      simp [checkRateLimit, hfilter, hunder]
    have hspan2 : ∀ s ∈ (acc ++ [t]) ++ rest, ∀ u ∈ (acc ++ [t]) ++ rest,
        u - s < (60000 : Int) := by
      intro s hs u hu
      rw [List.append_assoc, List.singleton_append] at hs hu
      exact hspan s hs u hu
    have hlen2 : (acc ++ [t]).length + rest.length ≤ 10 := by
      simp only [List.length_append, List.length_cons, List.length_nil] at hlen ⊢
      omega
    obtain ⟨ihd, ihe⟩ := ih (acc ++ [t]) hspan2 hlen2
    constructor
    · intro d hd
      simp only [runRateLimit, hstep, List.mem_cons] at hd
      rcases hd with hd | hd
      · subst hd; rfl
      · exact ihd d hd
    · simp only [runRateLimit, hstep]
      rw [ihe]
      simp [List.append_assoc]

/-- C6: with a 60-second window and a limit of 10, a fresh client's first
10 requests inside one window are all admitted and recorded; the 11th is
rejected with retry-after 60 (≤ 60) and the client is blocked for one
full window; while blocked, every request is rejected with the entry left
untouched (no window re-evaluation); once the cooldown has elapsed the
next request is admitted and the timestamp history is reset to it. -/
theorem admission_control_window (ts : List Int) (t11 : Int) (e3 e4 : RLEntry)
    (now3 now4 : Int)
    (hlen : ts.length = 10)
    (hspan : ∀ s ∈ ts ++ [t11], ∀ t ∈ ts ++ [t11], t - s < (60000 : Int))
    (h3b : e3.blocked = true) (h3t : now3 < e3.blockedUntil)
    (h4b : e4.blocked = true) (h4t : e4.blockedUntil ≤ now4) :
    (∀ d ∈ (runRateLimit 60000 10 ts freshEntry).1, d.isAllowed = true)
    ∧ (runRateLimit 60000 10 ts freshEntry).2 = ⟨ts, false, 0⟩
    ∧ checkRateLimit 60000 10 (some ⟨ts, false, 0⟩) t11
        = (.rejected 60 "rate_limit", ⟨ts, true, t11 + 60000⟩)
    ∧ checkRateLimit 60000 10 (some e3) now3
        = (.rejected ((e3.blockedUntil - now3 + 999) / 1000) "blocked", e3)
    ∧ checkRateLimit 60000 10 (some e4) now4
        = (.allowed 9, ⟨[now4], false, e4.blockedUntil⟩) := by
  have hsub : ∀ s ∈ ([] : List Int) ++ ts, ∀ t ∈ ([] : List Int) ++ ts,
      t - s < (60000 : Int) := by
    intro s hs t ht
    simp only [List.nil_append] at hs ht
    exact hspan s (by simp [hs]) t (by simp [ht])
  obtain ⟨hadm, hfin⟩ := runRL_all_admitted ts [] hsub (by simp [hlen])
  have hfilter11 : ts.filter (fun s => decide (t11 - (60000 : Int) < s)) = ts := by
    apply List.filter_eq_self.mpr
    intro s hs
    have h1 : t11 - s < (60000 : Int) :=
      hspan s (by simp [hs]) t11 (by simp)
    simp only [decide_eq_true_eq]
    omega
  refine ⟨hadm, by simpa using hfin, ?_, ?_, ?_⟩
  · have hover : 10 ≤ ts.length := by omega
    simp [checkRateLimit, hfilter11, hover]
  · simp [checkRateLimit, h3b, h3t]
  · have hnl : ¬ now4 < e4.blockedUntil := by omega
    simp [checkRateLimit, h4b, hnl, h4t]

/-- Witness for C6. -/
theorem admission_control_window_witness :
    ([0, 1, 2, 3, 4, 5, 6, 7, 8, 9] : List Int).length = 10
    ∧ ((∀ d ∈ (runRateLimit 60000 10 [0, 1, 2, 3, 4, 5, 6, 7, 8, 9] freshEntry).1,
          d.isAllowed = true)
      ∧ (runRateLimit 60000 10 [0, 1, 2, 3, 4, 5, 6, 7, 8, 9] freshEntry).2
          = ⟨[0, 1, 2, 3, 4, 5, 6, 7, 8, 9], false, 0⟩
      ∧ checkRateLimit 60000 10 (some ⟨[0, 1, 2, 3, 4, 5, 6, 7, 8, 9], false, 0⟩) 10
          = (.rejected 60 "rate_limit", ⟨[0, 1, 2, 3, 4, 5, 6, 7, 8, 9], true, 10 + 60000⟩)
      ∧ checkRateLimit 60000 10 (some ⟨[], true, 1000⟩) 0
          = (.rejected (((1000 : Int) - 0 + 999) / 1000) "blocked", ⟨[], true, 1000⟩)
      ∧ checkRateLimit 60000 10 (some ⟨[3], true, 5⟩) 5
          = (.allowed 9, ⟨[5], false, 5⟩)) :=
  ⟨by decide,
    admission_control_window [0, 1, 2, 3, 4, 5, 6, 7, 8, 9] 10 ⟨[], true, 1000⟩ ⟨[3], true, 5⟩
      0 5 (by decide) (by decide) (by decide) (by decide) (by decide) (by decide)⟩

/-! ## Snippet extraction -/

theorem bestStartGo_keeps (windowSize : Nat) :
    ∀ (l : List Nat) (b m : Nat),
      (∀ c ∈ windowCounts windowSize l, c ≤ m) → bestStartGo windowSize l b m = b := by
  intro l
  induction l with
  | nil => intro b m _; rfl
  | cons p rest ih =>
    intro b m h
    have h1 : windowCount windowSize p rest ≤ m := h _ (by simp [windowCounts])
    have h2 : ∀ c ∈ windowCounts windowSize rest, c ≤ m :=
      fun c hc => h c (by simp [windowCounts, hc])
    simp only [bestStartGo, Nat.not_lt.mpr h1, if_false]
    exact ih b m h2

/-- C9: for a document of length 2000 with sorted match offsets
`[50, 60, 1800]` and window size 200, `extractBestWindow` selects the
window built around the `[50, 60]` cluster: the cut range is `[0, 200)`,
which covers offsets 50 and 60 but not 1800, and the returned snippet is
the first 200 characters followed by a trailing ellipsis.  Moreover, a
candidate start offset never displaces an earlier best of equal (or
larger) match density: ties keep the earliest candidate. -/
theorem extractBestWindow_eq (sd : ScoredDoc) (ws : Nat)
    (h : sd.matchPositions.isEmpty = false) :
    extractBestWindow sd ws = String.mk
      ((if 0 < (bestWindowRange sd.doc.content.toList.length ws sd.matchPositions).1
          then "...".toList else [])
        ++ substringChars sd.doc.content.toList
            (bestWindowRange sd.doc.content.toList.length ws sd.matchPositions).1
            (bestWindowRange sd.doc.content.toList.length ws sd.matchPositions).2
        ++ (if (bestWindowRange sd.doc.content.toList.length ws sd.matchPositions).2
              < sd.doc.content.toList.length then "...".toList else [])) := by
  unfold extractBestWindow
  simp only [h, Bool.false_eq_true, if_false]

theorem snippet_densest_window :
    bestWindowRange 2000 200 [50, 60, 1800] = (0, 200)
    ∧ ((bestWindowRange 2000 200 [50, 60, 1800]).1 ≤ 50
        ∧ 50 < (bestWindowRange 2000 200 [50, 60, 1800]).2
        ∧ (bestWindowRange 2000 200 [50, 60, 1800]).1 ≤ 60
        ∧ 60 < (bestWindowRange 2000 200 [50, 60, 1800]).2)
    ∧ ¬((bestWindowRange 2000 200 [50, 60, 1800]).1 ≤ 1800
        ∧ 1800 < (bestWindowRange 2000 200 [50, 60, 1800]).2)
    ∧ extractBestWindow ⟨⟨"doc.txt", "txt", String.mk (List.replicate 2000 'a')⟩, 0,
          [50, 60, 1800]⟩ 200
        = String.mk (List.replicate 200 'a' ++ "...".toList)
    ∧ (∀ (windowSize : Nat) (l : List Nat) (b m : Nat),
        (∀ c ∈ windowCounts windowSize l, c ≤ m) → bestStartGo windowSize l b m = b) := by
  have hrange : bestWindowRange 2000 200 [50, 60, 1800] = (0, 200) := by decide
  refine ⟨hrange, by decide, by decide, ?_,
    fun windowSize l b m h => bestStartGo_keeps windowSize l b m h⟩
  have htl : (String.mk (List.replicate 2000 'a')).toList = List.replicate 2000 'a' := rfl
  have hlen : (String.mk (List.replicate 2000 'a')).toList.length = 2000 := by
    rw [htl, List.length_replicate]
  rw [extractBestWindow_eq _ 200 (by decide), hlen, hrange,
    show ((0, 200) : Nat × Nat).1 = 0 from rfl,
    show ((0, 200) : Nat × Nat).2 = 200 from rfl, htl]
  rw [if_neg (by decide : ¬(0 : Nat) < 0), if_pos (by decide : (200 : Nat) < 2000)]
  rw [show substringChars (List.replicate 2000 'a') 0 200
      = ((List.replicate 2000 'a').drop 0).take 200 from rfl,
    List.drop_zero, List.take_replicate, show min 200 2000 = 200 from rfl,
    List.nil_append]

/-- Witness for C9 (its final conjunct carries a hypothesis). -/
theorem snippet_densest_window_witness :
    (∀ c ∈ windowCounts 10 [3, 20], c ≤ 5) ∧ bestStartGo 10 [3, 20] 7 5 = 7 :=
  ⟨by decide, snippet_densest_window.2.2.2.2 10 [3, 20] 7 5 (by decide)⟩

theorem bestWindowRange_bounds (contentLen windowSize : Nat) (positions : List Nat) :
    (bestWindowRange contentLen windowSize positions).2 ≤ contentLen
    ∧ (bestWindowRange contentLen windowSize positions).2
        - (bestWindowRange contentLen windowSize positions).1 ≤ windowSize := by
  unfold bestWindowRange
  set best := bestStart windowSize positions with hbest
  set startPos := best - windowSize / 4 with hstart
  have h1 : min contentLen (startPos + windowSize) ≤ contentLen := Nat.min_le_left _ _
  have h2 : min contentLen (startPos + windowSize) ≤ startPos + windowSize :=
    Nat.min_le_right _ _
  by_cases hc : min contentLen (startPos + windowSize) - startPos < windowSize <;>
    simp only [hc, if_true, if_false] <;> constructor <;> omega

/-- C10: for every document and window size, the string returned by
`extractBestWindow` decomposes as an optional leading `...` marker, a
contiguous substring of the document content of length at most
`windowSize`, and an optional trailing `...` marker; and the cut range
never extends past the document bounds nor beyond `windowSize`
characters. -/
theorem snippet_window_bound (sd : ScoredDoc) (windowSize : Nat)
    (hws : 0 < windowSize) :
    (∃ pre mid suf : List Char,
      (extractBestWindow sd windowSize).toList = pre ++ mid ++ suf
      ∧ (pre = [] ∨ pre = "...".toList)
      ∧ (suf = [] ∨ suf = "...".toList)
      ∧ (∃ a n, mid = (sd.doc.content.toList.drop a).take n)
      ∧ mid.length ≤ windowSize)
    ∧ (∀ (contentLen : Nat) (positions : List Nat),
        (bestWindowRange contentLen windowSize positions).2 ≤ contentLen
        ∧ (bestWindowRange contentLen windowSize positions).2
            - (bestWindowRange contentLen windowSize positions).1 ≤ windowSize) := by
  refine ⟨?_, fun contentLen positions => bestWindowRange_bounds contentLen windowSize positions⟩
  by_cases hmp : sd.matchPositions.isEmpty
  · refine ⟨[], substringChars sd.doc.content.toList 0 windowSize, [], ?_, Or.inl rfl,
      Or.inl rfl, ⟨0, windowSize - 0, rfl⟩, ?_⟩
    · simp only [extractBestWindow, hmp, if_true]
      simp
    · simp only [substringChars]
      calc ((sd.doc.content.toList.drop 0).take (windowSize - 0)).length
          ≤ windowSize - 0 := List.length_take_le _ _
        _ ≤ windowSize := Nat.sub_le _ _
  · refine ⟨(if 0 < (bestWindowRange sd.doc.content.toList.length windowSize
        sd.matchPositions).1 then "...".toList else []),
      substringChars sd.doc.content.toList
        (bestWindowRange sd.doc.content.toList.length windowSize sd.matchPositions).1
        (bestWindowRange sd.doc.content.toList.length windowSize sd.matchPositions).2,
      (if (bestWindowRange sd.doc.content.toList.length windowSize sd.matchPositions).2
          < sd.doc.content.toList.length then "...".toList else []),
      ?_, ?_, ?_,
      ⟨(bestWindowRange sd.doc.content.toList.length windowSize sd.matchPositions).1,
        (bestWindowRange sd.doc.content.toList.length windowSize sd.matchPositions).2
          - (bestWindowRange sd.doc.content.toList.length windowSize
              sd.matchPositions).1, rfl⟩, ?_⟩
    · simp only [extractBestWindow, hmp, Bool.false_eq_true, if_false]
      rfl
    · by_cases h : 0 < (bestWindowRange sd.doc.content.toList.length windowSize
          sd.matchPositions).1
      · exact Or.inr (by rw [if_pos h])
      · exact Or.inl (by rw [if_neg h])
    · by_cases h : (bestWindowRange sd.doc.content.toList.length windowSize
          sd.matchPositions).2 < sd.doc.content.toList.length
      · exact Or.inr (by rw [if_pos h])
      · exact Or.inl (by rw [if_neg h])
    · have hb := bestWindowRange_bounds sd.doc.content.toList.length windowSize
        sd.matchPositions
      simp only [substringChars]
      calc ((sd.doc.content.toList.drop
              (bestWindowRange sd.doc.content.toList.length windowSize
                sd.matchPositions).1).take
            ((bestWindowRange sd.doc.content.toList.length windowSize
                sd.matchPositions).2
              - (bestWindowRange sd.doc.content.toList.length windowSize
                  sd.matchPositions).1)).length
          ≤ (bestWindowRange sd.doc.content.toList.length windowSize
              sd.matchPositions).2
            - (bestWindowRange sd.doc.content.toList.length windowSize
                sd.matchPositions).1 := List.length_take_le _ _
        _ ≤ windowSize := hb.2

/-- Witness for C10. -/
theorem snippet_window_bound_witness :
    0 < 5 ∧
    ((∃ pre mid suf : List Char,
      (extractBestWindow ⟨⟨"f.txt", "txt", "abcdefgh"⟩, 0, [2]⟩ 5).toList = pre ++ mid ++ suf
      ∧ (pre = [] ∨ pre = "...".toList)
      ∧ (suf = [] ∨ suf = "...".toList)
      ∧ (∃ a n, mid = (("abcdefgh" : String).toList.drop a).take n)
      ∧ mid.length ≤ 5)
    ∧ (∀ (contentLen : Nat) (positions : List Nat),
        (bestWindowRange contentLen 5 positions).2 ≤ contentLen
        ∧ (bestWindowRange contentLen 5 positions).2
            - (bestWindowRange contentLen 5 positions).1 ≤ 5)) :=
  ⟨by decide, snippet_window_bound ⟨⟨"f.txt", "txt", "abcdefgh"⟩, 0, [2]⟩ 5 (by decide)⟩

end SearchEngine
